import Mathlib

/-
Verification of the authentication and envelope protocol core of the
countrygen Discord webhook receiver (src/main.rs).

Modelling conventions:
- Rust strings and byte slices are modelled as `List Nat`, each element a
  byte value below 256 (UTF-8 bytes for strings).
- Fallible Rust operations returning Option/Result are modelled with
  `Option` and `Except String`.
- The Ed25519 primitive of the ed25519-dalek crate is kept abstract: every
  definition that needs it takes a boolean verification oracle
  `edVerify : key bytes -> message bytes -> signature bytes -> Bool`.
- The JSON text parser of serde_json is likewise abstract
  (`jsonParse : List Nat -> Option Json`); the serde-derived decoding of
  the parsed value into the `Interaction` enum is modelled concretely,
  following the semantics of derive(Deserialize) with serde(untagged).
-/

set_option autoImplicit false
set_option maxRecDepth 8192

/-- `str::is_char_boundary` of the Rust standard library, on the UTF-8
bytes of the string: index 0 is always a boundary, the length is a
boundary, and an interior index is a boundary when the byte there is not
a UTF-8 continuation byte (`b as i8 >= -0x40`). -/
def isCharBoundary (s : List Nat) (i : Nat) : Bool :=
  if i = 0 then true
  else
    match s[i]? with
    | none => decide (i = s.length)
    | some b => decide (b < 128) || decide (192 ≤ b)

/-- `str::get` with a half-open byte range `a..b`: returns the sub-slice
when `a <= b` and both ends are char boundaries, `none` otherwise. -/
def strGet (s : List Nat) (a b : Nat) : Option (List Nat) :=
  if a ≤ b ∧ isCharBoundary s a = true ∧ isCharBoundary s b = true then
    some ((s.drop a).take (b - a))
  else none

/-- `char::to_digit 16` on a byte: the value of a hexadecimal digit
(0-9, a-f, A-F), or `none`. -/
def hexDigitVal (b : Nat) : Option Nat :=
  if 48 ≤ b ∧ b ≤ 57 then some (b - 48)
  else if 97 ≤ b ∧ b ≤ 102 then some (b - 87)
  else if 65 ≤ b ∧ b ≤ 70 then some (b - 55)
  else none

/-- Digit-accumulation loop of `u8::from_str_radix(_, 16)`: each byte must
be a hex digit and the accumulator must stay within `u8` (checked
multiplication and addition). -/
def radixAccum : List Nat → Nat → Option Nat
  | [], acc => some acc
  | d :: ds, acc =>
    match hexDigitVal d with
    | none => none
    | some v => if acc * 16 + v ≤ 255 then radixAccum ds (acc * 16 + v) else none

/-- `u8::from_str_radix(s, 16)` of the Rust standard library: an empty
string fails; a leading plus sign (byte 43) is accepted when followed by
at least one digit; a minus sign is not a digit for an unsigned type, so
it fails; otherwise the digits accumulate into a `u8`. -/
def u8FromStrRadix16 (s : List Nat) : Option Nat :=
  match s with
  | [] => none
  | b :: rest =>
    if b = 43 then
      match rest with
      | [] => none
      | _ :: _ => radixAccum rest 0
    else radixAccum s 0

/-- Loop body of `parse_hex`: for indices `i, i+1, ..., i+k-1`, slice the
two-byte window at `2*j` (via the checked `str::get`), parse it with
`u8::from_str_radix(_, 16)`, and collect the bytes in order. -/
def parseHexLoop (s : List Nat) : Nat → Nat → Option (List Nat)
  | 0, _ => some []
  | k + 1, i =>
    match strGet s (2 * i) (2 * i + 2) with
    | none => none
    | some pair =>
      match u8FromStrRadix16 pair with
      | none => none
      | some b =>
        match parseHexLoop s k (i + 1) with
        | none => none
        | some rest => some (b :: rest)

/-- `parse_hex::<N>` of src/main.rs: the byte length of the string must be
exactly `N * 2`, and every two-byte window must parse as a `u8` in base
16; any failure makes the whole decode return `none`. -/
def parse_hex (N : Nat) (s : List Nat) : Option (List Nat) :=
  if s.length = N * 2 then parseHexLoop s N 0 else none


/-- JSON values, as parsed by serde_json into the self-describing buffer
that serde(untagged) deserialization inspects. Numbers are modelled as
integers (the only numeric payloads the decoder can accept are small
non-negative integers; a fractional number never deserializes as `u8`,
so it behaves like any other non-matching value). An object is the
ordered list of its key/value entries. -/
inductive Json where
  | null
  | bool (b : Bool)
  | num (n : Int)
  | str (s : String)
  | arr (elems : List Json)
  | obj (fields : List (String × Json))

/-- Field access as performed by the serde-derived struct visitor: the
entries with the given key must occur exactly once (a second occurrence
is a duplicate-field error, zero occurrences a missing-field error). -/
def singleField (fields : List (String × Json)) (k : String) : Option Json :=
  match fields.filter (fun p => p.1 = k) with
  | [p] => some p.2
  | _ => none

/-- `u8::deserialize` on a JSON value: an integer in `0..=255`. -/
def u8FromJson : Json → Option Nat
  | .num n => if 0 ≤ n ∧ n < 256 then some n.toNat else none
  | _ => none

/-- `String::deserialize` on a JSON value. -/
def strFromJson : Json → Option String
  | .str s => some s
  | _ => none

/-- `InteractionType::<T>::deserialize` of src/main.rs: deserialize the
value as a `u8` and require it to equal the constant `T`; any other value
is an error ("wrong version!"). -/
def decodeInteractionType (T : Nat) (j : Json) : Option Unit :=
  match u8FromJson j with
  | some v => if v = T then some () else none
  | none => none

/-- The `data` payload of an application command: the serde-derived
`ApplicationCommandData { name: String }`. A struct deserializes from a
map (taking the `name` field, ignoring unknown fields) or, positionally,
from a sequence with exactly one element. -/
def decodeAppCommandData : Json → Option String
  | .obj dfields =>
    match singleField dfields "name" with
    | some nv => strFromJson nv
    | none => none
  | .arr elems =>
    match elems with
    | [nv] => strFromJson nv
    | _ => none
  | _ => none

/-- The `Ping` variant of the untagged `Interaction` enum: a struct whose
single field is `type: InteractionType<1>`. From a map: the `type` entry
(exactly once) must deserialize as `u8` equal to 1; unknown entries are
ignored. From a sequence: exactly one element, deserialized the same
way. -/
def decodePing : Json → Option Unit
  | .obj fields =>
    match singleField fields "type" with
    | some tv => decodeInteractionType 1 tv
    | none => none
  | .arr elems =>
    match elems with
    | [tv] => decodeInteractionType 1 tv
    | _ => none
  | _ => none

/-- The `ApplicationCommand` variant of the untagged `Interaction` enum:
fields `type: InteractionType<2>` and `data: ApplicationCommandData`, from
a map by key or from a sequence positionally. -/
def decodeApplicationCommand : Json → Option String
  | .obj fields =>
    match singleField fields "type" with
    | some tv =>
      match decodeInteractionType 2 tv with
      | some _ =>
        match singleField fields "data" with
        | some dv => decodeAppCommandData dv
        | none => none
      | none => none
    | none => none
  | .arr elems =>
    match elems with
    | [tv, dv] =>
      match decodeInteractionType 2 tv with
      | some _ => decodeAppCommandData dv
      | none => none
    | _ => none
  | _ => none

/-- The decoded `Interaction` value of src/main.rs (the
`ApplicationCommandData` payload flattened to its single `name` field). -/
inductive Interaction where
  | Ping
  | ApplicationCommand (name : String)
deriving DecidableEq

/-- `Interaction::deserialize` (serde(untagged)): try the variants in
declaration order on the buffered value; the first that succeeds wins,
and if none succeeds the decode fails. -/
def interactionFromJson (j : Json) : Option Interaction :=
  match decodePing j with
  | some _ => some Interaction.Ping
  | none =>
    match decodeApplicationCommand j with
    | some name => some (Interaction.ApplicationCommand name)
    | none => none


/-- The response value built by `handle` in src/main.rs (payload of the
serde(untagged) `InteractionResponse` enum, with the unit tag markers
`InteractionCallbackType<1>` and `InteractionCallbackType<4>` implicit in
the constructor and the `Message { content }` payload flattened). -/
inductive InteractionResponse where
  | Pong
  | ChannelMessageWithSource (content : String)
deriving DecidableEq

/-- `InteractionResponse::serialize` (serde(untagged) plus the manual
`InteractionCallbackType::<T>::serialize`, which emits the constant `T`
as a `u8`): each variant serializes to a map with its fields in
declaration order, the `type` entry holding the variant's compiled-in
constant and the payload emitted verbatim. -/
def serializeInteractionResponse : InteractionResponse → Json
  | .Pong => Json.obj [("type", Json.num 1)]
  | .ChannelMessageWithSource content =>
    Json.obj [("type", Json.num 4),
              ("data", Json.obj [("content", Json.str content)])]

/-- The `type` entry of a serialized wire object. -/
def wireTypeTag (j : Json) : Option Json :=
  match j with
  | .obj fields => singleField fields "type"
  | _ => none

/-- Result of one signature check of the ed25519-dalek crate, abstracted:
`edVerify key msg sig` holds exactly when `sig` (64 bytes) is a valid
Ed25519 signature over `msg` under the verifying key `key`. -/
def EdVerify : Type := List Nat → List Nat → List Nat → Bool

/-- `verify_discord_message` of src/main.rs: decode the signature header
into 64 bytes with `parse_hex` (failure is the "invalid hex" error),
build the message as the byte-exact concatenation of the timestamp bytes
and the body bytes, and check the signature with the held verifying key
(`Signature::from_bytes` never fails on 64 bytes). -/
def verify_discord_message (edVerify : EdVerify) (public_key : List Nat)
    (signature : List Nat) (timestamp : List Nat) (body : List Nat) :
    Except String Unit :=
  match parse_hex 64 signature with
  | none => Except.error ("invalid hex")
  | some signature_bytes =>
    if edVerify public_key (timestamp ++ body) signature_bytes then
      Except.ok ()
    else Except.error ("signature error")

/-- Whether an `Except` value is a success. -/
def exceptIsOk {ε α : Type} : Except ε α → Bool
  | .ok _ => true
  | .error _ => false

/-- The two request headers `handle` reads, each an optional raw byte
value (absent header modelled as `none`). -/
structure HeaderMap where
  xSignatureEd25519 : Option (List Nat)
  xSignatureTimestamp : Option (List Nat)

/-- `HeaderValue::to_str` of the http crate: succeeds when every byte is
visible ASCII (32..=126) or horizontal tab. -/
def headerToStr (v : List Nat) : Option (List Nat) :=
  if v.all (fun b => (decide (32 ≤ b) && decide (b < 127)) || decide (b = 9)) then
    some v
  else none

/-- Outcome of one request: an HTTP error status with its fixed message,
a successful response value (serialized with HTTP 200 by axum), or a
panic (the `unwrap` on `SliceRandom::choose`, reachable only with an
empty word list). -/
inductive HResult where
  | err (status : Nat) (msg : String)
  | ok (resp : InteractionResponse)
  | panic
deriving DecidableEq

/-- `SliceRandom::choose`: `none` on an empty slice, otherwise the entry
at a uniformly drawn index; the draw is modelled by the arbitrary natural
`idx`, reduced modulo the length. -/
def chooseLine (lines : List String) (idx : Nat) : Option String :=
  match lines with
  | [] => none
  | _ :: _ => lines[idx % lines.length]?

/-- The dispatch match of `handle` (src/main.rs lines 196-229): a `Ping`
becomes a `Pong`; an application command's name is matched exactly
against "city", "usacity" and "state", producing a
`ChannelMessageWithSource` holding a randomly chosen line of the matched
word list (the `unwrap` panics if the list is empty); any other name is
the 400 "unknown command" error. -/
def dispatch (city usacity state : List String) (idx : Nat) :
    Interaction → HResult
  | .Ping => HResult.ok InteractionResponse.Pong
  | .ApplicationCommand name =>
    if name = "city" then
      match chooseLine city idx with
      | some content => HResult.ok (InteractionResponse.ChannelMessageWithSource content)
      | none => HResult.panic
    else if name = "usacity" then
      match chooseLine usacity idx with
      | some content => HResult.ok (InteractionResponse.ChannelMessageWithSource content)
      | none => HResult.panic
    else if name = "state" then
      match chooseLine state idx with
      | some content => HResult.ok (InteractionResponse.ChannelMessageWithSource content)
      | none => HResult.panic
    else HResult.err 400 ("unknown command")

/-- `handle` of src/main.rs: read and validate the two signature headers
(each missing or non-textual header is a 400), verify the signature
(any failure of `verify_discord_message`, malformed hex included, is
mapped to the 401 "invalid!!!" error), decode the body as an
`Interaction` (failure is a 400), and dispatch. The serde_json text
parser is abstracted as `jsonParse`; the word lists included at compile
time and the random draw are the `city`/`usacity`/`state`/`idx`
parameters. -/
def handle (edVerify : EdVerify) (jsonParse : List Nat → Option Json)
    (city usacity state : List String) (idx : Nat)
    (verifying_key : List Nat) (headers : HeaderMap) (body : List Nat) :
    HResult :=
  match headers.xSignatureEd25519 with
  | none => HResult.err 400 ("expected signature key")
  | some sigRaw =>
    match headerToStr sigRaw with
    | none => HResult.err 400 ("expected signature key to be valid string")
    | some signature =>
      match headers.xSignatureTimestamp with
      | none => HResult.err 400 ("expected signature timestamp")
      | some tsRaw =>
        match headerToStr tsRaw with
        | none => HResult.err 400 ("expected signature timestamp to be valid string")
        | some timestamp =>
          match verify_discord_message edVerify verifying_key signature timestamp body with
          | .error _ => HResult.err 401 ("invalid!!!")
          | .ok _ =>
            match jsonParse body with
            | none => HResult.err 400 ("failed to parse interaction")
            | some j =>
              match interactionFromJson j with
              | none => HResult.err 400 ("failed to parse interaction")
              | some interaction => dispatch city usacity state idx interaction



/-- HTTP status observed for an outcome: the error status, 200 for a
served response, and none for a crashed (panicking) handler. -/
def hresultStatus : HResult → Option Nat
  | .err status _ => some status
  | .ok _ => some 200
  | .panic => none

/-- Lowercase hexadecimal digit character (byte) of a value below 16.
This is the spec-side notion of standard hex encoding used to state the
round-trip property; it is not taken from src/main.rs, which only
decodes. -/
def hexCharOfDigit (d : Nat) : Nat :=
  if d < 10 then 48 + d else 87 + d

/-- Standard two-character lowercase hex encoding of one byte. -/
def encodeByteHex (x : Nat) : List Nat :=
  [hexCharOfDigit (x / 16), hexCharOfDigit (x % 16)]

/-- Standard lowercase hex encoding of a byte array, high digit first,
in order. -/
def encodeHex (b : List Nat) : List Nat :=
  (b.map encodeByteHex).flatten

lemma matchConsIsSome (b : Nat) (o : Option (List Nat)) :
    (match o with
     | none => none
     | some rest => some (b :: rest)).isSome = o.isSome := by
  cases o <;> rfl

lemma parseHexLoop_isSome_iff (s : List Nat) :
    ∀ (k i : Nat),
      (parseHexLoop s k i).isSome = true ↔
        ∀ d, d < k →
          ((strGet s (2 * (i + d)) (2 * (i + d) + 2)).bind u8FromStrRadix16).isSome = true := by
  intro k
  induction k with
  | zero => intro i; simp [parseHexLoop]
  | succ k ih =>
    intro i
    cases hg : strGet s (2 * i) (2 * i + 2) with
    | none =>
      apply iff_of_false
      · simp [parseHexLoop, hg]
      · intro H
        have h0 := H 0 (Nat.succ_pos k)
        simp [hg] at h0
    | some pair =>
      cases hu : u8FromStrRadix16 pair with
      | none =>
        apply iff_of_false
        · simp [parseHexLoop, hg, hu]
        · intro H
          have h0 := H 0 (Nat.succ_pos k)
          simp [hg, hu] at h0
      | some b =>
        have hstep : (parseHexLoop s (k + 1) i).isSome = (parseHexLoop s k (i + 1)).isSome := by
          simp only [parseHexLoop, hg, hu]
          exact matchConsIsSome b _
        rw [hstep, ih (i + 1)]
        constructor
        · intro H d hd
          match d, hd with
          | 0, _ =>
            simp [hg, hu]
          | d' + 1, hd =>
            have e : i + (d' + 1) = (i + 1) + d' := by omega
            rw [e]
            exact H d' (by omega)
        · intro H d hd
          have e : (i + 1) + d = i + (d + 1) := by omega
          rw [e]
          exact H (d + 1) (by omega)

/-- C4 (amended): `parse_hex` succeeds exactly when the byte length is
`2N` and every two-byte window both lies on char boundaries and parses
under `u8::from_str_radix(_, 16)`; it fails for every string of wrong
length, and on any window failure, all-or-nothing. The
hexadecimal-digit condition of the original claim is weakened to the
from_str_radix pair condition, which also accepts a leading plus sign. -/
theorem parse_hex_success_iff (N : Nat) (s : List Nat) :
    (parse_hex N s).isSome = true ↔
      s.length = N * 2 ∧
        ∀ i, i < N →
          ((strGet s (2 * i) (2 * i + 2)).bind u8FromStrRadix16).isSome = true := by
  unfold parse_hex
  by_cases hl : s.length = N * 2
  · simp [hl, parseHexLoop_isSome_iff]
  · simp [hl]

/-- C4 (counterexample): the two-byte string "+f" contains the plus sign,
which is not a hexadecimal digit, yet `parse_hex 1` decodes it to the
byte 15, because `u8::from_str_radix` accepts a leading plus sign. -/
theorem parse_hex_plus_sign_cex :
    parse_hex 1 [43, 102] = some [15] ∧ hexDigitVal 43 = none := by decide

/-- Witness for `parse_hex_success_iff` at the concrete string "00". -/
theorem parse_hex_success_iff_witness :
    (parse_hex 1 [48, 48]).isSome = true :=
  (parse_hex_success_iff 1 [48, 48]).mpr (by decide)

lemma ascii_isCharBoundary (s : List Nat) (hs : ∀ x ∈ s, x < 128) :
    ∀ j, j ≤ s.length → isCharBoundary s j = true := by
  intro j hj
  unfold isCharBoundary
  by_cases h0 : j = 0
  · simp [h0]
  · rw [if_neg h0]
    cases hsj : s[j]? with
    | none =>
      have : s.length ≤ j := List.getElem?_eq_none_iff.mp hsj
      simp [Nat.le_antisymm hj this]
    | some b =>
      have hb : b ∈ s := List.getElem?_mem hsj
      simp [hs b hb]

lemma strGet_ascii (s : List Nat) (a b : Nat) (hs : ∀ x ∈ s, x < 128)
    (hab : a ≤ b) (hb : b ≤ s.length) :
    strGet s a b = some ((s.drop a).take (b - a)) := by
  unfold strGet
  rw [if_pos]
  exact ⟨hab, ascii_isCharBoundary s hs a (Nat.le_trans hab hb),
    ascii_isCharBoundary s hs b hb⟩

lemma hexCharOfDigit_lt128 (d : Nat) (hd : d < 16) : hexCharOfDigit d < 128 := by
  unfold hexCharOfDigit; split <;> omega

lemma hexCharOfDigit_ne43 (d : Nat) : hexCharOfDigit d ≠ 43 := by
  unfold hexCharOfDigit; split <;> omega

lemma hexDigitVal_hexCharOfDigit (d : Nat) (hd : d < 16) :
    hexDigitVal (hexCharOfDigit d) = some d := by
  interval_cases d <;> rfl

lemma encodeByteHex_ascii (x : Nat) (hx : x < 256) :
    ∀ c ∈ encodeByteHex x, c < 128 := by
  intro c hc
  simp only [encodeByteHex, List.mem_cons, List.mem_singleton] at hc
  rcases hc with h | h | h
  · exact h ▸ hexCharOfDigit_lt128 _ (by omega)
  · exact h ▸ hexCharOfDigit_lt128 _ (by omega)
  · cases h

lemma encodeHex_ascii (b : List Nat) (hb : ∀ x ∈ b, x < 256) :
    ∀ c ∈ encodeHex b, c < 128 := by
  induction b with
  | nil => simp [encodeHex]
  | cons x tl ih =>
    intro c hc
    simp only [encodeHex, List.map_cons, List.flatten_cons, List.mem_append] at hc
    rcases hc with h | h
    · exact encodeByteHex_ascii x (hb x (by simp)) c h
    · exact ih (fun y hy => hb y (by simp [hy])) c h

lemma encodeHex_length (b : List Nat) : (encodeHex b).length = 2 * b.length := by
  induction b with
  | nil => rfl
  | cons x tl ih =>
    simp only [encodeHex, List.map_cons, List.flatten_cons, List.length_append,
      List.length_cons] at ih ⊢
    simp only [encodeByteHex, List.length_cons, List.length_nil]
    omega

lemma u8FromStrRadix16_encodeByteHex (x : Nat) (hx : x < 256) :
    u8FromStrRadix16 (encodeByteHex x) = some x := by
  have h1 := hexDigitVal_hexCharOfDigit (x / 16) (by omega)
  have h2 := hexDigitVal_hexCharOfDigit (x % 16) (by omega)
  simp only [encodeByteHex, u8FromStrRadix16]
  rw [if_neg (hexCharOfDigit_ne43 (x / 16))]
  simp only [radixAccum, h1, h2]
  rw [if_pos (by omega), if_pos (by omega)]
  have : (0 * 16 + x / 16) * 16 + x % 16 = x := by omega
  rw [this]

lemma encodeHex_cons (x : Nat) (tl : List Nat) :
    encodeHex (x :: tl) = encodeByteHex x ++ encodeHex tl := by
  simp [encodeHex]

lemma parseHexLoop_encodeHex :
    ∀ (tail pre : List Nat) (i : Nat),
      pre.length = 2 * i →
      (∀ x ∈ pre, x < 128) →
      (∀ x ∈ tail, x < 256) →
      parseHexLoop (pre ++ encodeHex tail) tail.length i = some tail := by
  intro tail
  induction tail with
  | nil => intro pre i _ _ _; simp [parseHexLoop]
  | cons x tl ih =>
    intro pre i hlen hpre htail
    have hx : x < 256 := htail x (by simp)
    have htl : ∀ y ∈ tl, y < 256 := fun y hy => htail y (by simp [hy])
    have hall : ∀ c ∈ pre ++ encodeHex (x :: tl), c < 128 := by
      intro c hc
      rcases List.mem_append.mp hc with h | h
      · exact hpre c h
      · exact encodeHex_ascii (x :: tl) htail c h
    have hslen : (pre ++ encodeHex (x :: tl)).length = 2 * i + 2 * (tl.length + 1) := by
      rw [List.length_append, hlen, encodeHex_length]
      simp
    have hget : strGet (pre ++ encodeHex (x :: tl)) (2 * i) (2 * i + 2) =
        some (encodeByteHex x) := by
      rw [strGet_ascii _ _ _ hall (by omega) (by omega)]
      congr 1
      have h2 : 2 * i + 2 - 2 * i = 2 := by omega
      rw [h2, ← hlen, List.drop_left]
      rw [encodeHex_cons]
      have hlen2 : (2 : Nat) = (encodeByteHex x).length := by simp [encodeByteHex]
      rw [hlen2, List.take_left]
    show parseHexLoop (pre ++ encodeHex (x :: tl)) (tl.length + 1) i = some (x :: tl)
    rw [parseHexLoop, hget]
    simp only [u8FromStrRadix16_encodeByteHex x hx]
    have hs : pre ++ encodeHex (x :: tl) = (pre ++ encodeByteHex x) ++ encodeHex tl := by
      rw [encodeHex_cons, List.append_assoc]
    rw [hs, ih (pre ++ encodeByteHex x) (i + 1)
      (by simp [List.length_append, hlen, encodeByteHex]; omega)
      (by
        intro y hy
        rcases List.mem_append.mp hy with h | h
        · exact hpre y h
        · exact encodeByteHex_ascii x hx y h)
      htl]

/-- C5: decoding the standard lowercase hex encoding of any byte array
`b` of length `N` with `parse_hex N` succeeds and returns exactly `b`. -/
theorem parse_hex_roundtrip (b : List Nat) (hb : ∀ x ∈ b, x < 256) :
    parse_hex b.length (encodeHex b) = some b := by
  unfold parse_hex
  rw [if_pos (by rw [encodeHex_length]; omega)]
  have := parseHexLoop_encodeHex b [] 0 rfl (by simp) hb
  simpa using this

/-- Witness for `parse_hex_roundtrip` at the bytes [0, 255, 16]. -/
theorem parse_hex_roundtrip_witness :
    parse_hex 3 (encodeHex [0, 255, 16]) = some [0, 255, 16] :=
  parse_hex_roundtrip [0, 255, 16] (by decide)

lemma parseHexLoop_length (s : List Nat) :
    ∀ (k i : Nat) (r : List Nat), parseHexLoop s k i = some r → r.length = k := by
  intro k
  induction k with
  | zero =>
    intro i r h
    simp [parseHexLoop] at h
    simp [← h]
  | succ k ih =>
    intro i r h
    rw [parseHexLoop] at h
    cases hg : strGet s (2 * i) (2 * i + 2) with
    | none => simp only [hg] at h; cases h
    | some pair =>
      simp only [hg] at h
      cases hu : u8FromStrRadix16 pair with
      | none => simp only [hu] at h; cases h
      | some b =>
        simp only [hu] at h
        cases hrec : parseHexLoop s k (i + 1) with
        | none => simp only [hrec] at h; cases h
        | some rest =>
          simp only [hrec] at h
          cases h
          simp [ih (i + 1) rest hrec]

/-- C9: `parse_hex` is a total function into `Option`: every input maps
to `none` or to `some` array of exactly `N` bytes, and a two-byte window
whose ends are not both char boundaries (as happens inside a multi-byte
UTF-8 character) makes the checked `str::get` return `none`, which
`parse_hex` propagates to an overall `none` instead of a panic. -/
theorem parse_hex_total_option :
    (∀ (N : Nat) (s : List Nat),
        parse_hex N s = none ∨
          ∃ bytes, parse_hex N s = some bytes ∧ bytes.length = N) ∧
    (∀ (N : Nat) (s : List Nat) (i : Nat), i < N →
        strGet s (2 * i) (2 * i + 2) = none → parse_hex N s = none) := by
  constructor
  · intro N s
    cases h : parse_hex N s with
    | none => exact Or.inl rfl
    | some bytes =>
      refine Or.inr ⟨bytes, rfl, ?_⟩
      unfold parse_hex at h
      by_cases hl : s.length = N * 2
      · rw [if_pos hl] at h
        exact parseHexLoop_length s N 0 bytes h
      · rw [if_neg hl] at h
        cases h
  · intro N s i hiN hw
    cases h : parse_hex N s with
    | none => rfl
    | some bytes =>
      exfalso
      unfold parse_hex at h
      by_cases hl : s.length = N * 2
      · rw [if_pos hl] at h
        have hsome : (parseHexLoop s N 0).isSome = true := by rw [h]; rfl
        have := (parseHexLoop_isSome_iff s N 0).mp hsome i hiN
        rw [Nat.zero_add] at this
        rw [hw] at this
        simp at this
      · rw [if_neg hl] at h
        cases h

/-- Witness for `parse_hex_total_option` on the string "0é0", whose
second two-byte window splits the two-byte character é. -/
theorem parse_hex_total_option_witness :
    parse_hex 2 [48, 195, 169, 48] = none :=
  parse_hex_total_option.2 2 [48, 195, 169, 48] 1 (by decide) (by decide)

lemma parse_hex_length (N : Nat) (s bytes : List Nat)
    (h : parse_hex N s = some bytes) : bytes.length = N := by
  unfold parse_hex at h
  by_cases hl : s.length = N * 2
  · rw [if_pos hl] at h
    exact parseHexLoop_length s N 0 bytes h
  · rw [if_neg hl] at h
    cases h

/-- C2: `verify_discord_message` succeeds exactly when the signature hex
decodes (via `parse_hex 64`) to a 64-byte array that the Ed25519
primitive accepts, under the held key, over exactly the concatenation of
the timestamp bytes followed by the body bytes, with no separator and
with the body bytes used verbatim. -/
theorem verify_discord_message_iff (edVerify : EdVerify)
    (key sig ts body : List Nat) :
    verify_discord_message edVerify key sig ts body = Except.ok () ↔
      ∃ bytes, parse_hex 64 sig = some bytes ∧ bytes.length = 64 ∧
        edVerify key (ts ++ body) bytes = true := by
  unfold verify_discord_message
  cases hp : parse_hex 64 sig with
  | none =>
    apply iff_of_false
    · intro h; cases h
    · rintro ⟨bytes, hb, -, -⟩; cases hb
  | some bytes =>
    by_cases hv : edVerify key (ts ++ body) bytes = true
    · apply iff_of_true
      · simp [hv]
      · exact ⟨bytes, rfl, parse_hex_length 64 sig bytes hp, hv⟩
    · apply iff_of_false
      · simp [hv]
      · rintro ⟨bytes', hb, -, hv'⟩
        cases hb
        exact hv hv'

/-- Witness for `verify_discord_message_iff`: with an oracle that accepts
everything and the all-zero 128-character signature hex, verification
succeeds. -/
theorem verify_discord_message_iff_witness :
    verify_discord_message (fun _ _ _ => true) [] (List.replicate 128 48) [49] [50] =
      Except.ok () :=
  (verify_discord_message_iff (fun _ _ _ => true) [] (List.replicate 128 48) [49] [50]).mpr
    ⟨List.replicate 64 0, by decide, by decide, rfl⟩

/-- C7: encoding an `InteractionResponse` is total and emits the wire
object whose `type` entry is the compile-time constant of the variant
(1 for Pong, 4 for ChannelMessageWithSource) and whose payload fields
appear verbatim; the emitted tag is a function of the variant alone,
never of the payload string. -/
theorem interaction_response_encoding :
    (serializeInteractionResponse InteractionResponse.Pong =
      Json.obj [("type", Json.num 1)]) ∧
    (∀ content,
      serializeInteractionResponse
          (InteractionResponse.ChannelMessageWithSource content) =
        Json.obj [("type", Json.num 4),
                  ("data", Json.obj [("content", Json.str content)])]) ∧
    (∀ r, wireTypeTag (serializeInteractionResponse r) =
      some (Json.num (match r with
        | InteractionResponse.Pong => 1
        | InteractionResponse.ChannelMessageWithSource _ => 4))) := by
  refine ⟨rfl, fun _ => rfl, fun r => ?_⟩
  cases r <;> rfl

/-- C10: decoding tolerates unknown extra fields: any object whose
`type` entry deserializes to 1 decodes as `Ping`, and any object whose
`type` entry deserializes to 2 and whose `data` entry is an object with
a string `name` entry decodes as `ApplicationCommand`, whatever other
entries the objects carry. -/
theorem interaction_decode_ignores_unknown_fields :
    (∀ fields tv, singleField fields "type" = some tv → u8FromJson tv = some 1 →
        interactionFromJson (Json.obj fields) = some Interaction.Ping) ∧
    (∀ fields tv dfields nv name,
        singleField fields "type" = some tv → u8FromJson tv = some 2 →
        singleField fields "data" = some (Json.obj dfields) →
        singleField dfields "name" = some nv → strFromJson nv = some name →
        interactionFromJson (Json.obj fields) =
          some (Interaction.ApplicationCommand name)) := by
  constructor
  · intro fields tv h1 h2
    simp [interactionFromJson, decodePing, decodeInteractionType, h1, h2]
  · intro fields tv dfields nv name h1 h2 h3 h4 h5
    simp [interactionFromJson, decodePing, decodeApplicationCommand,
      decodeInteractionType, decodeAppCommandData, h1, h2, h3, h4, h5]

/-- Witness for `interaction_decode_ignores_unknown_fields` on objects
with extra entries. -/
theorem interaction_decode_ignores_unknown_fields_witness :
    interactionFromJson (Json.obj
        [("id", Json.str "7"), ("type", Json.num 1), ("user", Json.null)]) =
      some Interaction.Ping ∧
    interactionFromJson (Json.obj
        [("type", Json.num 2), ("guild", Json.num 9),
         ("data", Json.obj [("name", Json.str "state"), ("options", Json.arr [])])]) =
      some (Interaction.ApplicationCommand "state") :=
  ⟨interaction_decode_ignores_unknown_fields.1 _ _ rfl rfl,
   interaction_decode_ignores_unknown_fields.2 _ _ _ _ _ rfl rfl rfl rfl rfl⟩

/-- C3 (counterexample): the serde(untagged) decoder also accepts the
positional sequence form of a struct variant, so the JSON array [1] - a
body with no `type` field at all - decodes as `Ping`. -/
theorem interaction_decode_seq_cex :
    interactionFromJson (Json.arr [Json.num 1]) = some Interaction.Ping ∧
    wireTypeTag (Json.arr [Json.num 1]) = none :=
  ⟨rfl, rfl⟩

/-- C3 (amended): for object bodies the claim holds: an object decodes
as a variant only if its `type` entry deserializes to that variant's
constant (1 for Ping, 2 for ApplicationCommand, with the required
payload for the latter), and an object whose `type` value differs from
both constants never decodes, whatever its other entries hold. In
addition, the derived untagged decoder accepts the positional sequence
form, e.g. the array [1] decodes as Ping with no `type` field present. -/
theorem interaction_decode_discriminant :
    (∀ fields, interactionFromJson (Json.obj fields) = some Interaction.Ping →
        (singleField fields "type").bind u8FromJson = some 1) ∧
    (∀ fields name,
        interactionFromJson (Json.obj fields) =
            some (Interaction.ApplicationCommand name) →
        (singleField fields "type").bind u8FromJson = some 2 ∧
        ∃ dv, singleField fields "data" = some dv ∧
          decodeAppCommandData dv = some name) ∧
    (∀ fields t, (singleField fields "type").bind u8FromJson = some t →
        t ≠ 1 → t ≠ 2 → interactionFromJson (Json.obj fields) = none) ∧
    (∀ tv, decodeInteractionType 1 tv = some () →
        interactionFromJson (Json.arr [tv]) = some Interaction.Ping) := by
  refine ⟨?_, ?_, ?_, ?_⟩
  · intro fields h
    rw [interactionFromJson] at h
    cases hp : decodePing (Json.obj fields) with
    | some u =>
      rw [decodePing] at hp
      cases hsf : singleField fields "type" with
      | none => simp only [hsf] at hp; cases hp
      | some tv =>
        simp only [hsf] at hp
        rw [decodeInteractionType] at hp
        cases hu : u8FromJson tv with
        | none => simp only [hu] at hp; cases hp
        | some v =>
          simp only [hu] at hp
          by_cases hv : v = 1
          · simp [hsf, hu, hv]
          · rw [if_neg hv] at hp; cases hp
    | none =>
      simp only [hp] at h
      cases hac : decodeApplicationCommand (Json.obj fields) with
      | some name => simp only [hac] at h; simp at h
      | none => simp only [hac] at h; cases h
  · intro fields name h
    rw [interactionFromJson] at h
    cases hp : decodePing (Json.obj fields) with
    | some u => simp only [hp] at h; simp at h
    | none =>
      simp only [hp] at h
      cases hac : decodeApplicationCommand (Json.obj fields) with
      | none => simp only [hac] at h; cases h
      | some name' =>
        simp only [hac] at h
        have hname : name' = name := by simpa using h
        subst hname
        rw [decodeApplicationCommand] at hac
        cases hsf : singleField fields "type" with
        | none => simp only [hsf] at hac; cases hac
        | some tv =>
          simp only [hsf] at hac
          cases hit : decodeInteractionType 2 tv with
          | none => simp only [hit] at hac; cases hac
          | some u =>
            simp only [hit] at hac
            cases hsd : singleField fields "data" with
            | none => simp only [hsd] at hac; cases hac
            | some dv =>
              simp only [hsd] at hac
              refine ⟨?_, dv, rfl, hac⟩
              rw [decodeInteractionType] at hit
              cases hu : u8FromJson tv with
              | none => simp only [hu] at hit; cases hit
              | some v =>
                simp only [hu] at hit
                by_cases hv : v = 2
                · simp [hu, hv]
                · rw [if_neg hv] at hit; cases hit
  · intro fields t ht h1 h2
    cases hsf : singleField fields "type" with
    | none => rw [hsf] at ht; cases ht
    | some tv =>
      rw [hsf] at ht
      have hu : u8FromJson tv = some t := ht
      simp [interactionFromJson, decodePing, decodeApplicationCommand,
        decodeInteractionType, hsf, hu, h1, h2]
  · intro tv h
    simp [interactionFromJson, decodePing, h]

/-- Witness for `interaction_decode_discriminant` on the signed body
with unused discriminant 3 and otherwise valid fields. -/
theorem interaction_decode_discriminant_witness :
    interactionFromJson (Json.obj
        [("type", Json.num 3),
         ("data", Json.obj [("name", Json.str "city")])]) = none :=
  interaction_decode_discriminant.2.2.1
    [("type", Json.num 3), ("data", Json.obj [("name", Json.str "city")])] 3
    rfl (by decide) (by decide)

lemma chooseLine_mem (lines : List String) (idx : Nat) (c : String)
    (h : chooseLine lines idx = some c) : c ∈ lines := by
  cases lines with
  | nil => simp [chooseLine] at h
  | cons x tl =>
    simp only [chooseLine] at h
    exact List.getElem?_mem h

lemma chooseLine_isSome (lines : List String) (idx : Nat) (h : lines ≠ []) :
    (chooseLine lines idx).isSome = true := by
  cases lines with
  | nil => cases h rfl
  | cons x tl =>
    simp only [chooseLine]
    have hlt : idx % (x :: tl).length < (x :: tl).length :=
      Nat.mod_lt _ (by simp)
    rw [List.getElem?_eq_getElem hlt]
    rfl

/-- C6: dispatch is the three-way case split of `handle`: a `Ping`
always produces `Pong`; an `ApplicationCommand` named exactly "city",
"usacity" or "state" produces a `ChannelMessageWithSource` whose content
is the randomly chosen entry, which belongs to that command's word list
(and on a non-empty list the choice always succeeds); any other name is
the 400 "unknown command" error. -/
theorem dispatch_cases (city usacity state : List String) (idx : Nat) :
    dispatch city usacity state idx Interaction.Ping =
      HResult.ok InteractionResponse.Pong ∧
    (∀ c, chooseLine city idx = some c →
        c ∈ city ∧
        dispatch city usacity state idx (Interaction.ApplicationCommand "city") =
          HResult.ok (InteractionResponse.ChannelMessageWithSource c)) ∧
    (∀ c, chooseLine usacity idx = some c →
        c ∈ usacity ∧
        dispatch city usacity state idx (Interaction.ApplicationCommand "usacity") =
          HResult.ok (InteractionResponse.ChannelMessageWithSource c)) ∧
    (∀ c, chooseLine state idx = some c →
        c ∈ state ∧
        dispatch city usacity state idx (Interaction.ApplicationCommand "state") =
          HResult.ok (InteractionResponse.ChannelMessageWithSource c)) ∧
    (city ≠ [] → (chooseLine city idx).isSome = true) ∧
    (usacity ≠ [] → (chooseLine usacity idx).isSome = true) ∧
    (state ≠ [] → (chooseLine state idx).isSome = true) ∧
    (∀ name, name ≠ "city" → name ≠ "usacity" → name ≠ "state" →
        dispatch city usacity state idx (Interaction.ApplicationCommand name) =
          HResult.err 400 ("unknown command")) := by
  refine ⟨rfl, ?_, ?_, ?_,
    chooseLine_isSome city idx, chooseLine_isSome usacity idx,
    chooseLine_isSome state idx, ?_⟩
  · intro c hc
    exact ⟨chooseLine_mem city idx c hc, by simp [dispatch, hc]⟩
  · intro c hc
    exact ⟨chooseLine_mem usacity idx c hc, by simp [dispatch, hc]⟩
  · intro c hc
    exact ⟨chooseLine_mem state idx c hc, by simp [dispatch, hc]⟩
  · intro name h1 h2 h3
    simp [dispatch, h1, h2, h3]

/-- Witness for `dispatch_cases` with one-entry word lists. -/
theorem dispatch_cases_witness :
    dispatch ["a"] ["b"] ["c"] 0 Interaction.Ping =
      HResult.ok InteractionResponse.Pong ∧
    ("a" ∈ ["a"] ∧
      dispatch ["a"] ["b"] ["c"] 0 (Interaction.ApplicationCommand "city") =
        HResult.ok (InteractionResponse.ChannelMessageWithSource "a")) ∧
    dispatch ["a"] ["b"] ["c"] 0 (Interaction.ApplicationCommand "nope") =
      HResult.err 400 ("unknown command") :=
  ⟨(dispatch_cases ["a"] ["b"] ["c"] 0).1,
   (dispatch_cases ["a"] ["b"] ["c"] 0).2.1 "a" rfl,
   (dispatch_cases ["a"] ["b"] ["c"] 0).2.2.2.2.2.2.2 "nope"
     (by decide) (by decide) (by decide)⟩

/-- C8: whenever the headers are present and textually valid but
signature verification fails, `handle` returns the 401 error whatever
JSON parser is plugged in for the body — the body is never decoded, so
its bytes cannot influence the outcome. -/
theorem handle_verify_failure_short_circuit
    (edVerify : EdVerify) (city usacity state : List String) (idx : Nat)
    (key : List Nat) (hdrs : HeaderMap) (body : List Nat)
    (sigRaw sigStr tsRaw tsStr : List Nat)
    (h1 : hdrs.xSignatureEd25519 = some sigRaw)
    (h2 : headerToStr sigRaw = some sigStr)
    (h3 : hdrs.xSignatureTimestamp = some tsRaw)
    (h4 : headerToStr tsRaw = some tsStr)
    (h5 : exceptIsOk (verify_discord_message edVerify key sigStr tsStr body) = false) :
    ∀ jsonParse : List Nat → Option Json,
      handle edVerify jsonParse city usacity state idx key hdrs body =
        HResult.err 401 ("invalid!!!") := by
  intro jsonParse
  simp only [handle, h1, h2, h3, h4]
  cases hv : verify_discord_message edVerify key sigStr tsStr body with
  | error e => simp [hv]
  | ok u =>
    rw [hv] at h5
    simp [exceptIsOk] at h5

/-- Witness for `handle_verify_failure_short_circuit`: a rejecting
oracle with a well-formed all-zero signature yields 401 even though the
body would decode as a Ping. -/
theorem handle_verify_failure_short_circuit_witness :
    handle (fun _ _ _ => false) (fun _ => some (Json.obj [("type", Json.num 1)]))
        [] [] [] 0 []
        { xSignatureEd25519 := some (List.replicate 128 48),
          xSignatureTimestamp := some [48] } [] =
      HResult.err 401 ("invalid!!!") :=
  handle_verify_failure_short_circuit (fun _ _ _ => false) [] [] [] 0 []
    { xSignatureEd25519 := some (List.replicate 128 48),
      xSignatureTimestamp := some [48] } []
    (List.replicate 128 48) (List.replicate 128 48) [48] [48]
    rfl (by decide) rfl rfl (by decide)
    (fun _ => some (Json.obj [("type", Json.num 1)]))

lemma dispatch_not_401 (city usacity state : List String) (idx : Nat)
    (i : Interaction) :
    hresultStatus (dispatch city usacity state idx i) ≠ some 401 := by
  cases i with
  | Ping => simp [dispatch, hresultStatus]
  | ApplicationCommand name =>
    simp only [dispatch]
    split_ifs
    · cases chooseLine city idx <;> simp [hresultStatus]
    · cases chooseLine usacity idx <;> simp [hresultStatus]
    · cases chooseLine state idx <;> simp [hresultStatus]
    · simp [hresultStatus]

/-- C1 (amended): `handle` answers 401 exactly when both signature
headers are present and textually valid and `verify_discord_message`
fails - whether because the signature hex is malformed or because
cryptographic verification rejects it. A present, textually valid
signature header whose hex fails to decode therefore yields 401, not
400; 400 is reserved for header problems, undecodable bodies and
unknown commands. -/
theorem handle_401_iff (edVerify : EdVerify) (jsonParse : List Nat → Option Json)
    (city usacity state : List String) (idx : Nat) (key : List Nat)
    (hdrs : HeaderMap) (body : List Nat) :
    hresultStatus (handle edVerify jsonParse city usacity state idx key hdrs body) =
        some 401 ↔
      ∃ sigRaw sigStr tsRaw tsStr,
        hdrs.xSignatureEd25519 = some sigRaw ∧
        headerToStr sigRaw = some sigStr ∧
        hdrs.xSignatureTimestamp = some tsRaw ∧
        headerToStr tsRaw = some tsStr ∧
        exceptIsOk (verify_discord_message edVerify key sigStr tsStr body) = false := by
  cases h1 : hdrs.xSignatureEd25519 with
  | none => simp [handle, h1, hresultStatus]
  | some sigRaw =>
    cases h2 : headerToStr sigRaw with
    | none => simp [handle, h1, h2, hresultStatus]
    | some sigStr =>
      cases h3 : hdrs.xSignatureTimestamp with
      | none => simp [handle, h1, h2, h3, hresultStatus]
      | some tsRaw =>
        cases h4 : headerToStr tsRaw with
        | none => simp [handle, h1, h2, h3, h4, hresultStatus]
        | some tsStr =>
          cases h5 : verify_discord_message edVerify key sigStr tsStr body with
          | error e =>
            simp [handle, h1, h2, h3, h4, h5, hresultStatus, exceptIsOk]
          | ok u =>
            cases h6 : jsonParse body with
            | none =>
              simp [handle, h1, h2, h3, h4, h5, h6, hresultStatus, exceptIsOk]
            | some j =>
              cases h7 : interactionFromJson j with
              | none =>
                simp [handle, h1, h2, h3, h4, h5, h6, h7, hresultStatus, exceptIsOk]
              | some i =>
                have hd := dispatch_not_401 city usacity state idx i
                simp [handle, h1, h2, h3, h4, h5, h6, h7, exceptIsOk, hd]

/-- C1 (counterexample): the signature header "zz" is present and
textually valid, its hex decoding fails (wrong length and non-hex
characters), and the handler answers 401, not 400. -/
theorem handle_malformed_hex_401_cex :
    parse_hex 64 [122, 122] = none ∧
    headerToStr [122, 122] = some [122, 122] ∧
    hresultStatus (handle (fun _ _ _ => false) (fun _ => none) [] [] [] 0 []
        { xSignatureEd25519 := some [122, 122], xSignatureTimestamp := some [48] } []) =
      some 401 ∧
    hresultStatus (handle (fun _ _ _ => false) (fun _ => none) [] [] [] 0 []
        { xSignatureEd25519 := some [122, 122], xSignatureTimestamp := some [48] } []) ≠
      some 400 := by
  refine ⟨rfl, rfl, rfl, ?_⟩
  decide

/-- Witness for `handle_401_iff`: even with an oracle that accepts every
signature, the malformed hex header forces the 401 answer. -/
theorem handle_401_iff_witness :
    hresultStatus (handle (fun _ _ _ => true) (fun _ => none) [] [] [] 0 []
        { xSignatureEd25519 := some [122, 122], xSignatureTimestamp := some [48] } []) =
      some 401 :=
  (handle_401_iff (fun _ _ _ => true) (fun _ => none) [] [] [] 0 []
      { xSignatureEd25519 := some [122, 122], xSignatureTimestamp := some [48] } []).mpr
    ⟨[122, 122], [122, 122], [48], [48], rfl, rfl, rfl, rfl, rfl⟩
